import Mathlib

/-!
Verification development for the Hummingbird backtest engine
(`tools/backtest_runner.py`).

The engine is embedded shallowly: Python dicts of trade intents become a
structure with `Option` fields (a `none` models a missing dict key), the
mutable ledger becomes explicit state passing, and Python exceptions
(`KeyError` on a missing key, `IndexError` on `iloc[-1]` of an empty
column) become `Except` errors.  All prices and quantities are embedded as
exact rationals `ℚ`; Python's binary floats are modelled by exact
arithmetic, and the reporting-boundary `round(x, n)` is modelled as
round-half-to-even at `n` decimal digits.
-/

deriving instance DecidableEq for Except

namespace Hummingbird

/-- One OHLCV bar.  The engine reads only the `timestamp` column (for
sorting, line 48) and the `close` column (terminal valuation, line 84);
the open/high/low/volume columns are never consulted and are omitted. -/
structure Bar where
  timestamp : ℚ
  close : ℚ
deriving DecidableEq

/-- A trade-intent dict as yielded by a strategy.  Every field is
`Option`al because a Python dict may lack any key: the source reads
`trade.get('side')`, `trade.get('price', 0)`, `trade.get('size', 1)` and
`trade['time']` (lines 55-58). -/
structure Trade where
  time : Option ℚ
  side : Option String
  price : Option ℚ
  size : Option ℚ
deriving DecidableEq

/-- An executed trade: the original intent dict spread via `**trade`
(so the original `time`/`side`/`price`/`size` values are preserved)
plus the two added keys `exec_time` and `exec_price` (lines 69-73, 78-82). -/
structure ExecTrade where
  trade : Trade
  exec_time : ℚ
  exec_price : ℚ
deriving DecidableEq

/-- The ledger state mutated by the intent-consumption loop:
`cash`, `position` and the list `trades` of executed trades (lines 50-52). -/
structure Ledger where
  cash : ℚ
  position : ℚ
  trades : List ExecTrade
deriving DecidableEq

/-- The Python exceptions the embedded pipeline can raise: `KeyError`
from `trade['time']` (line 58) or `t['price']` (line 91), and
`IndexError` from `df['close'].iloc[-1]` on an empty frame (line 84). -/
inductive PyErr where
  | keyError (field : String)
  | indexError
deriving DecidableEq

/-- The result dict of `run_backtest` (lines 95-103). -/
structure BacktestResult where
  pnl : ℚ
  final_equity : ℚ
  cash : ℚ
  position : ℚ
  total_trades : ℕ
  win_rate : ℚ
  trades : List ExecTrade
deriving DecidableEq

/-- The keys of the dict literal returned at lines 95-103, in source
order.  `run_backtest` never calls `compute_metrics`, so no
`sharpe_ratio` or `max_drawdown` key is ever added. -/
def resultKeys : List String :=
  ["pnl", "final_equity", "cash", "position", "total_trades", "win_rate", "trades"]

/-- Floor of a rational via flooring integer division. -/
def ratFloor (q : ℚ) : ℤ := Int.fdiv q.num (q.den : ℤ)

/-- Round a rational to the nearest integer, ties to even: the semantics
of rounding a (binary-float-free idealisation of a) Python float with
`round`. -/
def roundHalfEven (q : ℚ) : ℤ :=
  let f := ratFloor q
  let r := q - (f : ℚ)
  if r < 1/2 then f
  else if (1 : ℚ)/2 < r then f + 1
  else if f % 2 = 0 then f else f + 1

/-- Python `round(q, d)`: round-half-even at `d` decimal places. -/
def roundDec (d : ℕ) (q : ℚ) : ℚ :=
  ((roundHalfEven (q * (10 ^ d : ℚ)) : ℚ)) / (10 ^ d : ℚ)

/-- Line 56: `price = float(trade.get('price', 0))` — a missing price is
substituted with the default `0`. -/
def tradePrice (t : Trade) : ℚ := t.price.getD 0

/-- Line 57: `size = float(trade.get('size', 1))` — a missing size is
substituted with the default `1`. -/
def tradeSize (t : Trade) : ℚ := t.size.getD 1

/-- Line 61: `slip = price * (slippage_bps / 10000.0)`. -/
def slipAmount (bps price : ℚ) : ℚ := price * (bps / 10000)

/-- Line 62: `exec_price = price + slip if side == 'buy' else price - slip`. -/
def execPriceFor (side : Option String) (price slip : ℚ) : ℚ :=
  if side = some "buy" then price + slip else price - slip

/-- Lines 54-82: processing of a single trade intent.  Reads the fields
with their defaults, raises `KeyError` when `'time'` is absent
(line 58), computes slippage and execution price, then dispatches on
`side`: a Buy is accepted iff `cash >= cost` (line 66), a Sell iff
`position >= size` (line 75); any other side (including a missing one)
falls through with no effect. -/
def processTrade (lat bps : ℚ) (led : Ledger) (t : Trade) : Except PyErr Ledger :=
  let side := t.side
  let price := tradePrice t
  let size := tradeSize t
  match t.time with
  | none => .error (.keyError "time")
  | some tm =>
    let exec_time := tm + lat
    let slip := slipAmount bps price
    let exec_price := execPriceFor side price slip
    if side = some "buy" then
      let cost := exec_price * size
      if led.cash ≥ cost then
        .ok ⟨led.cash - cost, led.position + size,
             led.trades ++ [⟨t, exec_time, exec_price⟩]⟩
      else .ok led
    else if side = some "sell" then
      if led.position ≥ size then
        .ok ⟨led.cash + exec_price * size, led.position - size,
             led.trades ++ [⟨t, exec_time, exec_price⟩]⟩
      else .ok led
    else .ok led

/-- The `for trade in strategy_fn(df)` loop (lines 54-82): the intents
are consumed strictly in emission order; a raised `KeyError` aborts the
whole loop. -/
def runIntents (lat bps : ℚ) : List Trade → Ledger → Except PyErr Ledger
  | [], led => .ok led
  | t :: rest, led =>
    match processTrade lat bps led t with
    | .error e => .error e
    | .ok led2 => runIntents lat bps rest led2

/-- Stable insertion of a bar into a timestamp-sorted list (ties keep
the already-placed bar first). -/
def insertBar (b : Bar) : List Bar → List Bar
  | [] => [b]
  | c :: rest =>
    if b.timestamp ≤ c.timestamp then b :: c :: rest else c :: insertBar b rest

/-- Line 48: `df.sort_values('timestamp')` — sort the bars ascending by
timestamp (insertion sort; the claims do not depend on the tie-breaking
order of pandas' default quicksort). -/
def sortBars : List Bar → List Bar
  | [] => []
  | b :: rest => insertBar b (sortBars rest)

/-- Lines 89-92: the `win_trades` comprehension, counting trades with
`t['side'] == 'sell' and t['exec_price'] > t['price']`.  Python's `and`
short-circuits, so `t['price']` is read only on sell trades; a sell
trade whose original dict lacked `'price'` raises `KeyError` here. -/
def countWins : List ExecTrade → Except PyErr ℕ
  | [] => .ok 0
  | e :: rest =>
    if e.trade.side = some "sell" then
      match e.trade.price with
      | none => .error (.keyError "price")
      | some p =>
        match countWins rest with
        | .error err => .error err
        | .ok n => .ok (if p < e.exec_price then n + 1 else n)
    else countWins rest

/-- Lines 48-103: the full `run_backtest` pipeline.  The strategy is an
external black box, so its output — the finite list of intents it yields
on the sorted bar series — is taken directly as the `intents` argument.
Order of effects matches the source: the consumption loop runs first
(lines 54-82, may raise `KeyError`), then `df['close'].iloc[-1]`
(line 84, raises `IndexError` on an empty frame), then the win-trades
comprehension (lines 89-92, may raise `KeyError`), then the result dict
with its `round`ed reporting fields (lines 95-103). -/
def runBacktest (bars : List Bar) (intents : List Trade)
    (lat starting_cash bps : ℚ) : Except PyErr BacktestResult :=
  match runIntents lat bps intents ⟨starting_cash, 0, []⟩ with
  | .error e => .error e
  | .ok led =>
    match ((sortBars bars).map Bar.close).getLast? with
    | none => .error .indexError
    | some last_price =>
      let equity := led.cash + led.position * last_price
      let pnl := equity - starting_cash
      let total_trades := led.trades.length
      match countWins led.trades with
      | .error e => .error e
      | .ok w =>
        let win_rate : ℚ :=
          if 2 ≤ total_trades then ((w : ℚ) / ((total_trades : ℚ) / 2)) * 100 else 0
        .ok ⟨roundDec 2 pnl, roundDec 2 equity, roundDec 2 led.cash,
             roundDec 4 led.position, total_trades, roundDec 2 win_rate,
             led.trades⟩

/-- Positional pairing of executed trades into round-trips: trades
`0,1`, then `2,3`, and so on; a trailing unpaired trade is dropped. -/
def roundTrips : List ExecTrade → List (ExecTrade × ExecTrade)
  | a :: b :: rest => (a, b) :: roundTrips rest
  | _ => []

/-- Follows the spec's words (§4.2 `win_rate`), for comparison with the
win rate the code computes: "among paired Buy→Sell round-trips, the
fraction where the Sell's `exec_price` exceeds the paired Buy's original
(unadjusted) `price`, expressed as a percentage", zero when fewer than 2
trades exist. -/
def specPairedWinRate (trades : List ExecTrade) : ℚ :=
  if 2 ≤ trades.length then
    (((roundTrips trades).filter
        (fun p => decide (p.1.trade.price.getD 0 < p.2.exec_price))).length : ℚ)
      / ((roundTrips trades).length : ℚ) * 100
  else 0

/-- The possible outcomes of the sharpe computation of `compute_metrics`
(lines 16-17), classified exactly by the branch the source takes:
`zero` is the literal `0.0` returned when `returns` is empty after
`dropna`; `nonFinite` covers every float non-finite outcome (`NaN` or
`±inf`); `finiteVal m v` is the finite value `(m / √v) * √252` with
`m` the mean and `v ≠ 0` the sample variance of the returns — the
irrational factors cannot live in `ℚ`, so the finite outcome carries
its two rational constituents. -/
inductive SharpeOutcome where
  | zero
  | nonFinite
  | finiteVal (meanRet variance : ℚ)
deriving DecidableEq

/-- Line 16: `returns = equity_curve.pct_change().dropna()`.  Entry `i`
of `pct_change` is `(e i - e (i-1)) / e (i-1)`.  When `e (i-1) = 0` the
float result is non-finite: `NaN` for `0/0`, which `dropna` removes, or
`±inf` for nonzero over zero, which `dropna` keeps.  The first component
is the list of finite retained returns; the Boolean flags whether any
`±inf` entry survives `dropna`. -/
def pctChangeDropna : List ℚ → List ℚ × Bool
  | [] => ([], false)
  | [_] => ([], false)
  | a :: b :: rest =>
    let p := pctChangeDropna (b :: rest)
    if a = 0 then
      if b = 0 then p else (p.1, true)
    else ((b - a) / a :: p.1, p.2)

/-- Mean of the retained returns, `returns.mean()`. -/
def listMean (l : List ℚ) : ℚ := l.sum / (l.length : ℚ)

/-- Square of `returns.std()`: the sample variance with pandas' default
`ddof = 1` (meaningful only for lists of length at least 2; a singleton
gives float `NaN`, handled separately in `sharpeOutcome`). -/
def listVar1 (l : List ℚ) : ℚ :=
  ((l.map (fun x => (x - listMean l) ^ 2)).sum) / ((l.length : ℚ) - 1)

/-- Line 17:
`sharpe = (returns.mean() / returns.std()) * np.sqrt(252) if not returns.empty else 0.0`.
Branches, in source evaluation order:
* `returns` empty (also no surviving `±inf` entry) — the literal `0.0`;
* some `±inf` return survives `dropna`: then `mean` is `±inf` or `NaN`
  and `std` is `inf` or `NaN`, so the quotient is `NaN` in every case —
  non-finite;
* a single retained return: `std` with `ddof = 1` is `NaN`, and
  `mean / NaN = NaN` — non-finite;
* sample variance zero: `std() = 0.0` and float `mean / 0.0` is `NaN`
  (when `mean = 0`) or `±inf` — non-finite;
* otherwise the finite value `(mean / std) * √252`, carried as its
  rational constituents mean and variance. -/
def sharpeOutcome (curve : List ℚ) : SharpeOutcome :=
  let p := pctChangeDropna curve
  if p.1.isEmpty && !p.2 then .zero
  else if p.2 then .nonFinite
  else if p.1.length = 1 then .nonFinite
  else if listVar1 p.1 = 0 then .nonFinite
  else .finiteVal (listMean p.1) (listVar1 p.1)

end Hummingbird

namespace Hummingbird

section

/- Batteries marks the `Rat` field operations `@[irreducible]`; making them
semireducible in this section lets `decide` evaluate the embedded pipeline
on concrete inputs. -/
attribute [local semireducible] Rat.add Rat.mul Rat.inv Rat.sub Rat.ofScientific

/-! ### Helper lemmas (shared; not claim theorems) -/

lemma processTrade_time_none (lat bps : ℚ) (led : Ledger) (t : Trade) (h : t.time = none) :
    processTrade lat bps led t = .error (.keyError "time") := by
  simp [processTrade, h]

lemma processTrade_buy_reject (lat bps : ℚ) (led : Ledger) (t : Trade) (tm : ℚ)
    (ht : t.time = some tm) (hs : t.side = some "buy")
    (hc : led.cash < execPriceFor t.side (tradePrice t) (slipAmount bps (tradePrice t)) * tradeSize t) :
    processTrade lat bps led t = .ok led := by
  rw [hs] at hc
  simp [processTrade, ht, hs, not_le.mpr hc]

lemma processTrade_sell_reject (lat bps : ℚ) (led : Ledger) (t : Trade) (tm : ℚ)
    (ht : t.time = some tm) (hs : t.side = some "sell")
    (hc : led.position < tradeSize t) :
    processTrade lat bps led t = .ok led := by
  simp [processTrade, ht, hs, not_le.mpr hc]

lemma processTrade_other_side (lat bps : ℚ) (led : Ledger) (t : Trade) (tm : ℚ)
    (ht : t.time = some tm) (hb : t.side ≠ some "buy") (hs : t.side ≠ some "sell") :
    processTrade lat bps led t = .ok led := by
  simp [processTrade, ht, hb, hs]

lemma runIntents_cons (lat bps : ℚ) (led led2 : Ledger) (t : Trade) (rest : List Trade)
    (h : processTrade lat bps led t = .ok led2) :
    runIntents lat bps (t :: rest) led = runIntents lat bps rest led2 := by
  simp [runIntents, h]

lemma processTrade_ok_cases (lat bps : ℚ) (led led2 : Ledger) (t : Trade)
    (h : processTrade lat bps led t = .ok led2) :
    led2 = led ∨ ∃ tm, t.time = some tm ∧
      ((t.side = some "buy" ∧
        execPriceFor t.side (tradePrice t) (slipAmount bps (tradePrice t)) * tradeSize t ≤ led.cash ∧
        led2 = ⟨led.cash - execPriceFor t.side (tradePrice t) (slipAmount bps (tradePrice t)) * tradeSize t,
                led.position + tradeSize t,
                led.trades ++ [⟨t, tm + lat, execPriceFor t.side (tradePrice t) (slipAmount bps (tradePrice t))⟩]⟩) ∨
       (t.side = some "sell" ∧ tradeSize t ≤ led.position ∧
        led2 = ⟨led.cash + execPriceFor t.side (tradePrice t) (slipAmount bps (tradePrice t)) * tradeSize t,
                led.position - tradeSize t,
                led.trades ++ [⟨t, tm + lat, execPriceFor t.side (tradePrice t) (slipAmount bps (tradePrice t))⟩]⟩)) := by
  unfold processTrade at h
  cases ht : t.time with
  | none => rw [ht] at h; simp at h
  | some tm =>
    rw [ht] at h
    simp only at h
    split_ifs at h with h1 h2 h3 h4 <;>
      simp only [Except.ok.injEq] at h
    · exact Or.inr ⟨tm, rfl, Or.inl ⟨h1, h2, h.symm⟩⟩
    · exact Or.inl h.symm
    · exact Or.inr ⟨tm, rfl, Or.inr ⟨h3, h4, h.symm⟩⟩
    · exact Or.inl h.symm
    · exact Or.inl h.symm

lemma processTrade_inv (lat bps : ℚ) (hbps : bps ≤ 10000) (led led2 : Ledger) (t : Trade)
    (hp : 0 ≤ tradePrice t) (hsz : 0 ≤ tradeSize t)
    (hc : 0 ≤ led.cash) (hpos : 0 ≤ led.position)
    (h : processTrade lat bps led t = .ok led2) :
    0 ≤ led2.cash ∧ 0 ≤ led2.position := by
  rcases processTrade_ok_cases lat bps led led2 t h with rfl | ⟨tm, ht, hcase⟩
  · exact ⟨hc, hpos⟩
  rcases hcase with ⟨hb, hcost, rfl⟩ | ⟨hs, hsize, rfl⟩
  · exact ⟨by simpa using sub_nonneg.mpr hcost, add_nonneg hpos hsz⟩
  · refine ⟨?_, by simpa using sub_nonneg.mpr hsize⟩
    have hexec : 0 ≤ execPriceFor t.side (tradePrice t) (slipAmount bps (tradePrice t)) := by
      rw [hs]
      unfold execPriceFor slipAmount
      rw [if_neg (by decide)]
      nlinarith [mul_nonneg hp (by linarith : (0 : ℚ) ≤ 10000 - bps)]
    exact add_nonneg hc (mul_nonneg hexec hsz)

lemma runIntents_inv (lat bps : ℚ) (hbps : bps ≤ 10000) (intents : List Trade)
    (hall : ∀ t ∈ intents, 0 ≤ tradePrice t ∧ 0 ≤ tradeSize t) :
    ∀ led led2 : Ledger, 0 ≤ led.cash → 0 ≤ led.position →
      runIntents lat bps intents led = .ok led2 → 0 ≤ led2.cash ∧ 0 ≤ led2.position := by
  induction intents with
  | nil =>
    intro led led2 hc hp h
    simp only [runIntents, Except.ok.injEq] at h
    exact h ▸ ⟨hc, hp⟩
  | cons t rest ih =>
    intro led led2 hc hp h
    simp only [runIntents] at h
    cases hpt : processTrade lat bps led t with
    | error e => rw [hpt] at h; simp at h
    | ok mid =>
      rw [hpt] at h
      have hmid := processTrade_inv lat bps hbps led mid t
        (hall t (by simp)).1 (hall t (by simp)).2 hc hp hpt
      exact ih (fun u hu => hall u (by simp [hu])) mid led2 hmid.1 hmid.2 h

lemma runBacktest_ok_inv (bars : List Bar) (intents : List Trade) (lat sc bps : ℚ)
    (r : BacktestResult) (h : runBacktest bars intents lat sc bps = .ok r) :
    ∃ led lp w, runIntents lat bps intents ⟨sc, 0, []⟩ = .ok led ∧
      ((sortBars bars).map Bar.close).getLast? = some lp ∧
      countWins led.trades = .ok w ∧
      r = ⟨roundDec 2 ((led.cash + led.position * lp) - sc),
           roundDec 2 (led.cash + led.position * lp),
           roundDec 2 led.cash, roundDec 4 led.position, led.trades.length,
           roundDec 2 (if 2 ≤ led.trades.length then
             ((w : ℚ) / ((led.trades.length : ℚ) / 2)) * 100 else 0),
           led.trades⟩ := by
  unfold runBacktest at h
  split at h
  next e heq1 => simp at h
  next led heq1 =>
    split at h
    next heq2 => simp at h
    next lp heq2 =>
      split at h
      next e heq3 => simp at h
      next w heq3 =>
        simp only [Except.ok.injEq] at h
        exact ⟨led, lp, w, heq1, heq2, heq3, h.symm⟩

lemma processTrade_isOk (lat bps : ℚ) (led : Ledger) (t : Trade) (tm : ℚ)
    (ht : t.time = some tm) :
    ∃ led2, processTrade lat bps led t = .ok led2 := by
  unfold processTrade
  rw [ht]
  simp only
  split_ifs <;> exact ⟨_, rfl⟩

lemma processTrade_trades_sub (lat bps : ℚ) (led led2 : Ledger) (t : Trade)
    (h : processTrade lat bps led t = .ok led2) :
    ∀ e ∈ led2.trades, e ∈ led.trades ∨ e.trade = t := by
  intro e he
  rcases processTrade_ok_cases lat bps led led2 t h with rfl | ⟨tm, ht, hcase⟩
  · exact Or.inl he
  rcases hcase with ⟨_, _, rfl⟩ | ⟨_, _, rfl⟩ <;>
  · simp only [List.mem_append, List.mem_singleton] at he
    rcases he with h1 | rfl
    · exact Or.inl h1
    · exact Or.inr rfl

lemma countWins_ok (l : List ExecTrade) (h : ∀ e ∈ l, e.trade.price ≠ none) :
    ∃ n, countWins l = .ok n := by
  induction l with
  | nil => exact ⟨0, rfl⟩
  | cons e rest ih =>
    obtain ⟨n, hn⟩ := ih (fun u hu => h u (by simp [hu]))
    unfold countWins
    by_cases hs : e.trade.side = some "sell"
    · rw [if_pos hs]
      cases hp : e.trade.price with
      | none => exact absurd hp (h e (by simp))
      | some p =>
        rw [hn]
        exact ⟨_, rfl⟩
    · rw [if_neg hs]
      exact ⟨n, hn⟩

lemma runIntents_ok_priced (lat bps : ℚ) (intents : List Trade)
    (h : ∀ t ∈ intents, t.time ≠ none ∧ t.price ≠ none) :
    ∀ led : Ledger, (∀ e ∈ led.trades, e.trade.price ≠ none) →
      ∃ led2, runIntents lat bps intents led = .ok led2 ∧
        ∀ e ∈ led2.trades, e.trade.price ≠ none := by
  induction intents with
  | nil =>
    intro led hled
    exact ⟨led, rfl, hled⟩
  | cons t rest ih =>
    intro led hled
    have ht := (h t (by simp)).1
    cases htm : t.time with
    | none => exact absurd htm ht
    | some tm =>
      obtain ⟨mid, hmid⟩ := processTrade_isOk lat bps led t tm htm
      have hmidtr : ∀ e ∈ mid.trades, e.trade.price ≠ none := by
        intro e he
        rcases processTrade_trades_sub lat bps led mid t hmid e he with h1 | h2
        · exact hled e h1
        · rw [h2]
          exact (h t (by simp)).2
      obtain ⟨led2, h2, h3⟩ := ih (fun u hu => h u (by simp [hu])) mid hmidtr
      exact ⟨led2, by rw [runIntents_cons lat bps led mid t rest hmid]; exact h2, h3⟩

lemma insertBar_length (b : Bar) (l : List Bar) :
    (insertBar b l).length = l.length + 1 := by
  induction l with
  | nil => rfl
  | cons c rest ih =>
    unfold insertBar
    split_ifs <;> simp [ih]

lemma sortBars_length (l : List Bar) : (sortBars l).length = l.length := by
  induction l with
  | nil => rfl
  | cons b rest ih => simp [sortBars, insertBar_length, ih]

lemma countWins_error_of_mem (l : List ExecTrade) (e : ExecTrade) (he : e ∈ l)
    (hs : e.trade.side = some "sell") (hp : e.trade.price = none) :
    countWins l = .error (.keyError "price") := by
  induction l with
  | nil => cases he
  | cons x rest ih =>
    rcases List.mem_cons.mp he with rfl | hmem
    · unfold countWins
      rw [if_pos hs, hp]
    · unfold countWins
      by_cases hx : x.trade.side = some "sell"
      · rw [if_pos hx]
        cases hxp : x.trade.price with
        | none => rfl
        | some p => rw [ih hmem]
      · rw [if_neg hx]
        exact ih hmem

/-! ### Claim theorems -/

/-- C5: a Buy intent with cost > cash and a Sell intent with size > position
are rejected without raising an error: the ledger (cash, position, trades)
is returned unchanged, and processing continues with the remaining
intents. -/
theorem rejected_intent_leaves_ledger_unchanged (lat bps : ℚ) (led : Ledger) (t : Trade)
    (tm : ℚ) (ht : t.time = some tm) (rest : List Trade) :
    (t.side = some "buy" →
      led.cash < execPriceFor t.side (tradePrice t) (slipAmount bps (tradePrice t)) * tradeSize t →
      processTrade lat bps led t = .ok led ∧
      runIntents lat bps (t :: rest) led = runIntents lat bps rest led) ∧
    (t.side = some "sell" → led.position < tradeSize t →
      processTrade lat bps led t = .ok led ∧
      runIntents lat bps (t :: rest) led = runIntents lat bps rest led) := by
  constructor
  · intro hs hc
    have h := processTrade_buy_reject lat bps led t tm ht hs hc
    exact ⟨h, runIntents_cons lat bps led led t rest h⟩
  · intro hs hc
    have h := processTrade_sell_reject lat bps led t tm ht hs hc
    exact ⟨h, runIntents_cons lat bps led led t rest h⟩

/-- Witness for C5: the spec §8 scenario — starting cash 50, a Buy costing
101 is rejected and leaves the ledger unchanged; a Sell of size 1 with a
flat position is likewise rejected. -/
theorem rejected_intent_leaves_ledger_unchanged_witness :
    (processTrade 0 0 ⟨50, 0, []⟩ ⟨some 1, some "buy", some 101, some 1⟩ = .ok ⟨50, 0, []⟩ ∧
      runIntents 0 0 [⟨some 1, some "buy", some 101, some 1⟩] ⟨50, 0, []⟩ =
        runIntents 0 0 [] ⟨50, 0, []⟩) ∧
    (processTrade 0 0 ⟨50, 0, []⟩ ⟨some 1, some "sell", some 101, some 1⟩ = .ok ⟨50, 0, []⟩ ∧
      runIntents 0 0 [⟨some 1, some "sell", some 101, some 1⟩] ⟨50, 0, []⟩ =
        runIntents 0 0 [] ⟨50, 0, []⟩) :=
  ⟨(rejected_intent_leaves_ledger_unchanged 0 0 ⟨50, 0, []⟩
      ⟨some 1, some "buy", some 101, some 1⟩ 1 rfl []).1 rfl (by decide),
   (rejected_intent_leaves_ledger_unchanged 0 0 ⟨50, 0, []⟩
      ⟨some 1, some "sell", some 101, some 1⟩ 1 rfl []).2 rfl (by decide)⟩

/-- C10 (amended): an intent that carries a `'time'` field and whose side
is neither `'buy'` nor `'sell'` (including a missing side) falls through
the dispatch: the ledger is unchanged, no error is raised, and the run
continues with the next intent. -/
theorem unknown_side_intent_skipped (lat bps : ℚ) (led : Ledger) (t : Trade) (tm : ℚ)
    (ht : t.time = some tm) (hb : t.side ≠ some "buy") (hs : t.side ≠ some "sell")
    (rest : List Trade) :
    processTrade lat bps led t = .ok led ∧
    runIntents lat bps (t :: rest) led = runIntents lat bps rest led := by
  have h := processTrade_other_side lat bps led t tm ht hb hs
  exact ⟨h, runIntents_cons lat bps led led t rest h⟩

/-- Witness for C10's amended theorem: an intent with a missing side (and
a present time) is skipped with no effect. -/
theorem unknown_side_intent_skipped_witness :
    processTrade 0 0 ⟨1000, 0, []⟩ ⟨some 0, none, some 1, some 1⟩ = .ok ⟨1000, 0, []⟩ ∧
    runIntents 0 0 [⟨some 0, none, some 1, some 1⟩] ⟨1000, 0, []⟩ =
      runIntents 0 0 [] ⟨1000, 0, []⟩ :=
  unknown_side_intent_skipped 0 0 ⟨1000, 0, []⟩ ⟨some 0, none, some 1, some 1⟩ 0
    rfl (by decide) (by decide) []

/-- Counterexample to C10 as stated: an intent whose side is unknown but
which also lacks the `'time'` key does raise — `trade['time']` at line 58
is evaluated before the side dispatch, so `run_backtest` aborts with a
`KeyError` instead of skipping the intent. -/
theorem unknown_side_missing_time_raises :
    runBacktest [⟨0, 100⟩] [⟨none, some "hold", some 1, some 1⟩] 0 1000 0
      = .error (.keyError "time") := by decide

/-- Counterexample to C9 as stated: a Buy intent missing its `'price'`
field is not propagated as a fatal error — the engine substitutes the
default `0` (line 56: `trade.get('price', 0)`), the zero-cost Buy passes
the cash check, and the run completes with the trade executed. -/
theorem buy_missing_price_executes_with_default :
    (runBacktest [⟨0, 100⟩] [⟨some 0, some "buy", none, some 1⟩] 0 1000 0).map
      (fun r => (r.total_trades, r.cash, r.position)) = .ok (1, 1000, 1) := by decide

/-- C9 (amended): a malformed intent is not uniformly fatal.  An intent
missing `'time'` aborts the loop at once with a propagated `KeyError`;
an intent with a missing or unknown side is silently skipped; a missing
`'size'` is substituted with the default `1`; a missing `'price'` is
substituted with the default `0` for execution — so a Buy missing
`'price'` completes without error — but a Sell missing `'price'` that
executes makes `run_backtest` abort with `KeyError` on `'price'`, raised
later in the win-rate comprehension (line 91). -/
theorem malformed_intent_outcomes (lat bps : ℚ) (led : Ledger) (t : Trade)
    (rest : List Trade) :
    (t.time = none → runIntents lat bps (t :: rest) led = .error (.keyError "time")) ∧
    (t.price = none → tradePrice t = 0) ∧
    (t.size = none → tradeSize t = 1) ∧
    (∀ tm, t.time = some tm → t.side ≠ some "buy" → t.side ≠ some "sell" →
      processTrade lat bps led t = .ok led) ∧
    (∀ (bars : List Bar) (intents : List Trade) (sc : ℚ) (led2 : Ledger) (lp : ℚ)
        (e : ExecTrade),
      runIntents lat bps intents ⟨sc, 0, []⟩ = .ok led2 →
      ((sortBars bars).map Bar.close).getLast? = some lp →
      e ∈ led2.trades → e.trade.side = some "sell" → e.trade.price = none →
      runBacktest bars intents lat sc bps = .error (.keyError "price")) := by
  refine ⟨?_, ?_, ?_, ?_, ?_⟩
  · intro h
    simp [runIntents, processTrade_time_none lat bps led t h]
  · intro h
    simp [tradePrice, h]
  · intro h
    simp [tradeSize, h]
  · intro tm htm hb hs
    exact processTrade_other_side lat bps led t tm htm hb hs
  · intro bars intents sc led2 lp e h1 h2 he hs hp
    have hcw := countWins_error_of_mem led2.trades e he hs hp
    unfold runBacktest
    rw [h1]
    dsimp only
    rw [h2]
    dsimp only
    rw [hcw]

/-- Witness for C9's amended theorem: a missing-time intent aborts with
`KeyError`; defaults `0`/`1` are substituted for missing price/size; an
unknown side is skipped; and a run whose executed Sell lacks `'price'`
aborts with `KeyError` on `'price'` at the win-rate stage. -/
theorem malformed_intent_outcomes_witness :
    runIntents 0 0 [⟨none, some "hold", some 1, some 1⟩] ⟨1000, 0, []⟩
      = .error (.keyError "time") ∧
    tradePrice ⟨some 0, some "buy", none, none⟩ = 0 ∧
    tradeSize ⟨some 0, some "buy", none, none⟩ = 1 ∧
    processTrade 0 0 ⟨1000, 0, []⟩ ⟨some 0, some "hold", some 1, some 1⟩ = .ok ⟨1000, 0, []⟩ ∧
    runBacktest [⟨0, 100⟩]
        [⟨some 0, some "buy", some 10, some 1⟩, ⟨some 1, some "sell", none, some 1⟩]
        0 1000 0 = .error (.keyError "price") :=
  ⟨(malformed_intent_outcomes 0 0 ⟨1000, 0, []⟩ ⟨none, some "hold", some 1, some 1⟩ []).1 rfl,
   (malformed_intent_outcomes 0 0 ⟨1000, 0, []⟩ ⟨some 0, some "buy", none, none⟩ []).2.1 rfl,
   (malformed_intent_outcomes 0 0 ⟨1000, 0, []⟩ ⟨some 0, some "buy", none, none⟩ []).2.2.1 rfl,
   (malformed_intent_outcomes 0 0 ⟨1000, 0, []⟩ ⟨some 0, some "hold", some 1, some 1⟩ []).2.2.2.1
     0 rfl (by decide) (by decide),
   (malformed_intent_outcomes 0 0 ⟨1000, 0, []⟩ ⟨some 0, some "hold", some 1, some 1⟩ []).2.2.2.2
     [⟨0, 100⟩]
     [⟨some 0, some "buy", some 10, some 1⟩, ⟨some 1, some "sell", none, some 1⟩]
     1000
     ⟨990, 0, [⟨⟨some 0, some "buy", some 10, some 1⟩, 0, 10⟩,
               ⟨⟨some 1, some "sell", none, some 1⟩, 1, 0⟩]⟩
     100
     ⟨⟨some 1, some "sell", none, some 1⟩, 1, 0⟩
     (by decide) (by decide) (by decide) rfl rfl⟩

/-- C6: for every intent executed by the engine, the recorded execution
carries `exec_time = intent.time + latency_ms` and
`exec_price = price + slip` for a Buy and `price - slip` otherwise, with
the slippage amount `slip = price * slippage_bps / 10000`. -/
theorem exec_time_and_slippage_model (lat bps : ℚ) (led led2 : Ledger) (t : Trade)
    (tm : ℚ) (ht : t.time = some tm) (h : processTrade lat bps led t = .ok led2)
    (e : ExecTrade) (he : led2.trades = led.trades ++ [e]) :
    e.exec_time = tm + lat ∧
    slipAmount bps (tradePrice t) = tradePrice t * (bps / 10000) ∧
    e.exec_price = (if t.side = some "buy"
      then tradePrice t + slipAmount bps (tradePrice t)
      else tradePrice t - slipAmount bps (tradePrice t)) := by
  rcases processTrade_ok_cases lat bps led led2 t h with rfl | ⟨tm2, ht2, hcase⟩
  · exact absurd he (by simp)
  have htm : tm2 = tm := Option.some.inj (ht2.symm.trans ht)
  subst htm
  rcases hcase with ⟨hb, _, rfl⟩ | ⟨hs, _, rfl⟩
  · have he2 := List.append_cancel_left he
    simp only [List.cons.injEq, and_true] at he2
    subst he2
    refine ⟨rfl, rfl, ?_⟩
    simp [execPriceFor, hb]
  · have he2 := List.append_cancel_left he
    simp only [List.cons.injEq, and_true] at he2
    subst he2
    refine ⟨rfl, rfl, ?_⟩
    simp [execPriceFor, hs]

/-- Witness for C6: a Buy at price 100 with 50 bps slippage and latency 3
is recorded with `exec_time = 7 + 3` and `exec_price = 100 + 100 * (50/10000)`. -/
theorem exec_time_and_slippage_model_witness :
    (⟨⟨some 7, some "buy", some 100, some 1⟩, 10, 100 + 1/2⟩ : ExecTrade).exec_time = 7 + 3 ∧
    slipAmount 50 (tradePrice ⟨some 7, some "buy", some 100, some 1⟩) =
      tradePrice ⟨some 7, some "buy", some 100, some 1⟩ * (50 / 10000) ∧
    (⟨⟨some 7, some "buy", some 100, some 1⟩, 10, 100 + 1/2⟩ : ExecTrade).exec_price =
      (if (⟨some 7, some "buy", some 100, some 1⟩ : Trade).side = some "buy"
        then tradePrice ⟨some 7, some "buy", some 100, some 1⟩ +
          slipAmount 50 (tradePrice ⟨some 7, some "buy", some 100, some 1⟩)
        else tradePrice ⟨some 7, some "buy", some 100, some 1⟩ -
          slipAmount 50 (tradePrice ⟨some 7, some "buy", some 100, some 1⟩)) :=
  exec_time_and_slippage_model 3 50 ⟨1000, 0, []⟩
    ⟨1000 - (100 + 1/2), 1, [⟨⟨some 7, some "buy", some 100, some 1⟩, 10, 100 + 1/2⟩]⟩
    ⟨some 7, some "buy", some 100, some 1⟩ 7 rfl (by decide)
    ⟨⟨some 7, some "buy", some 100, some 1⟩, 10, 100 + 1/2⟩ (by decide)

/-- C4 (amended): with slippage at most 10000 bps and every intent's
price and size nonnegative, the ledger invariants `cash ≥ 0` and
`position ≥ 0` hold after processing any intent sequence from the fresh
ledger (and hence after every step of any stream, that step's result
being the run of its prefix); moreover a Buy whose cost exceeds cash and
a Sell larger than the position are rejected — returned unchanged, never
clamped. -/
theorem ledger_invariant_nonneg (lat bps sc : ℚ) (hbps : bps ≤ 10000) (hsc : 0 < sc)
    (intents : List Trade)
    (hall : ∀ t ∈ intents, 0 ≤ tradePrice t ∧ 0 ≤ tradeSize t)
    (led2 : Ledger) (h : runIntents lat bps intents ⟨sc, 0, []⟩ = .ok led2) :
    (0 ≤ led2.cash ∧ 0 ≤ led2.position) ∧
    (∀ (led : Ledger) (t : Trade) (tm : ℚ), t.time = some tm →
      (t.side = some "buy" →
        led.cash < execPriceFor t.side (tradePrice t) (slipAmount bps (tradePrice t)) * tradeSize t →
        processTrade lat bps led t = .ok led) ∧
      (t.side = some "sell" → led.position < tradeSize t →
        processTrade lat bps led t = .ok led)) := by
  refine ⟨runIntents_inv lat bps hbps intents hall ⟨sc, 0, []⟩ led2
    (le_of_lt hsc) le_rfl h, ?_⟩
  intro led t tm ht
  exact ⟨fun hs hc => processTrade_buy_reject lat bps led t tm ht hs hc,
         fun hs hc => processTrade_sell_reject lat bps led t tm ht hs hc⟩

/-- Witness for C4's amended theorem: an accepted Buy of cost 10 from
cash 1000 leaves the invariants intact. -/
theorem ledger_invariant_nonneg_witness :
    0 ≤ (⟨990, 1, [⟨⟨some 0, some "buy", some 10, some 1⟩, 0, 10⟩]⟩ : Ledger).cash ∧
    0 ≤ (⟨990, 1, [⟨⟨some 0, some "buy", some 10, some 1⟩, 0, 10⟩]⟩ : Ledger).position :=
  (ledger_invariant_nonneg 0 0 1000 (by decide) (by decide)
    [⟨some 0, some "buy", some 10, some 1⟩] (by decide)
    ⟨990, 1, [⟨⟨some 0, some "buy", some 10, some 1⟩, 0, 10⟩]⟩ (by decide)).1

/-- Counterexample to C4 as stated: the engine performs no validation of
intent fields, so a strategy yielding a Sell of negative size (-5)
passes the `position >= size` check and drives cash to -40 < 0. -/
theorem negative_size_sell_drives_cash_negative :
    (runBacktest [⟨0, 100⟩] [⟨some 0, some "sell", some 10, some (-5)⟩] 0 10 0).map
      (fun r => r.cash) = .ok (-40) ∧ ((-40 : ℚ) < 0) := by decide

/-- C7: for every run over a non-empty bar series, the reported
`final_equity` is (the 2-decimal rounding of) `cash + position * last_price`
with `last_price` the close of the last bar of the sorted series, and the
reported `pnl` is that equity minus `starting_cash`. -/
theorem terminal_valuation_equity_pnl (bars : List Bar) (intents : List Trade)
    (lat sc bps : ℚ) (led : Ledger) (lp : ℚ) (r : BacktestResult)
    (hled : runIntents lat bps intents ⟨sc, 0, []⟩ = .ok led)
    (hlp : ((sortBars bars).map Bar.close).getLast? = some lp)
    (hrun : runBacktest bars intents lat sc bps = .ok r) :
    r.final_equity = roundDec 2 (led.cash + led.position * lp) ∧
    r.pnl = roundDec 2 ((led.cash + led.position * lp) - sc) := by
  obtain ⟨led2, lp2, w, h1, h2, h3, h4⟩ := runBacktest_ok_inv bars intents lat sc bps r hrun
  rw [hled] at h1
  have e1 : led = led2 := Except.ok.inj h1
  rw [hlp] at h2
  have e2 : lp = lp2 := Option.some.inj h2
  subst e1
  subst e2
  subst h4
  exact ⟨rfl, rfl⟩

/-- Witness for C7: the empty-strategy run over one bar closing at 100
with starting cash 1000 reports equity 1000 and pnl 0. -/
theorem terminal_valuation_equity_pnl_witness :
    (⟨0, 1000, 1000, 0, 0, 0, []⟩ : BacktestResult).final_equity =
      roundDec 2 ((⟨1000, 0, []⟩ : Ledger).cash + (⟨1000, 0, []⟩ : Ledger).position * 100) ∧
    (⟨0, 1000, 1000, 0, 0, 0, []⟩ : BacktestResult).pnl =
      roundDec 2 (((⟨1000, 0, []⟩ : Ledger).cash + (⟨1000, 0, []⟩ : Ledger).position * 100) - 1000) :=
  terminal_valuation_equity_pnl [⟨0, 100⟩] [] 0 1000 0 ⟨1000, 0, []⟩ 100
    ⟨0, 1000, 1000, 0, 0, 0, []⟩ (by decide) (by decide) (by decide)

/-- C1 (amended): the reported `win_rate` is (the 2-decimal rounding of)
the number of Sell trades whose `exec_price` strictly exceeds that same
Sell's own original `price`, divided by `total_trades / 2` and expressed
as a percentage, whenever at least 2 trades executed; with fewer than 2
trades it is exactly 0. -/
theorem win_rate_own_price_formula (bars : List Bar) (intents : List Trade)
    (lat sc bps : ℚ) (r : BacktestResult) (w : ℕ)
    (hrun : runBacktest bars intents lat sc bps = .ok r)
    (hw : countWins r.trades = .ok w) :
    r.win_rate = roundDec 2 (if 2 ≤ r.total_trades then
      ((w : ℚ) / ((r.total_trades : ℚ) / 2)) * 100 else 0) ∧
    (r.total_trades < 2 → r.win_rate = 0) := by
  obtain ⟨led, lp, w2, h1, h2, h3, h4⟩ := runBacktest_ok_inv bars intents lat sc bps r hrun
  subst h4
  simp only at hw
  rw [h3] at hw
  have hww : w2 = w := Except.ok.inj hw
  subst hww
  refine ⟨rfl, ?_⟩
  intro hlt
  simp only at hlt ⊢
  rw [if_neg (not_le.mpr hlt)]
  decide

/-- Witness for C1's amended theorem: the Buy@10/Sell@99 run executes 2
trades, none counted as a win (the Sell's exec price 99 does not exceed
its own price 99), so `win_rate` is 0. -/
theorem win_rate_own_price_formula_witness :
    (⟨89, 1089, 1089, 0, 2, 0,
        [⟨⟨some 0, some "buy", some 10, some 1⟩, 0, 10⟩,
         ⟨⟨some 1, some "sell", some 99, some 1⟩, 1, 99⟩]⟩ : BacktestResult).win_rate =
      roundDec 2 (if 2 ≤ (⟨89, 1089, 1089, 0, 2, 0,
          [⟨⟨some 0, some "buy", some 10, some 1⟩, 0, 10⟩,
           ⟨⟨some 1, some "sell", some 99, some 1⟩, 1, 99⟩]⟩ : BacktestResult).total_trades then
        (((0 : ℕ) : ℚ) / (((⟨89, 1089, 1089, 0, 2, 0,
          [⟨⟨some 0, some "buy", some 10, some 1⟩, 0, 10⟩,
           ⟨⟨some 1, some "sell", some 99, some 1⟩, 1, 99⟩]⟩ : BacktestResult).total_trades : ℚ) / 2)) * 100
        else 0) :=
  (win_rate_own_price_formula [⟨0, 100⟩]
    [⟨some 0, some "buy", some 10, some 1⟩, ⟨some 1, some "sell", some 99, some 1⟩]
    0 1000 0
    ⟨89, 1089, 1089, 0, 2, 0,
      [⟨⟨some 0, some "buy", some 10, some 1⟩, 0, 10⟩,
       ⟨⟨some 1, some "sell", some 99, some 1⟩, 1, 99⟩]⟩ 0
    (by decide) (by decide)).1

/-- Counterexample to C1 as stated: on the Buy@10/Sell@99 round-trip the
spec's definition (Sell's exec price vs the paired Buy's price, 99 > 10)
gives 100%, but the code compares the Sell's exec price to the Sell's
own price (99 > 99 fails) and reports 0. -/
theorem win_rate_not_paired_buy_price :
    (runBacktest [⟨0, 100⟩]
        [⟨some 0, some "buy", some 10, some 1⟩, ⟨some 1, some "sell", some 99, some 1⟩]
        0 1000 0).map (fun r => (r.win_rate, specPairedWinRate r.trades)) =
      .ok (0, 100) := by decide

/-- C2 (amended): `run_backtest` performs no validation of
`starting_cash` (nor of `latency_ms`): for every `starting_cash ≤ 0` the
run proceeds into trade processing and — bars non-empty, intents
carrying their `time` and `price` keys — completes normally; no
`ConfigError` exists anywhere in the code. -/
theorem no_starting_cash_validation (bars : List Bar) (hbars : bars ≠ [])
    (intents : List Trade) (hint : ∀ t ∈ intents, t.time ≠ none ∧ t.price ≠ none)
    (lat sc bps : ℚ) (hsc : sc ≤ 0) :
    (runBacktest bars intents lat sc bps).isOk = true := by
  obtain ⟨led, hled, hpr⟩ := runIntents_ok_priced lat bps intents hint ⟨sc, 0, []⟩ (by simp)
  obtain ⟨w, hw⟩ := countWins_ok led.trades hpr
  have hne : (sortBars bars).map Bar.close ≠ [] := by
    intro hcon
    apply hbars
    have hl := congrArg List.length hcon
    simp only [List.length_map, sortBars_length, List.length_nil] at hl
    exact List.length_eq_zero.mp hl
  obtain ⟨lp, hlp⟩ := Option.isSome_iff_exists.mp (List.getLast?_isSome.mpr hne)
  unfold runBacktest
  rw [hled]
  dsimp only
  rw [hlp]
  dsimp only
  rw [hw]
  rfl

/-- Witness for C2's amended theorem: with `starting_cash = -1` the run
completes with no error. -/
theorem no_starting_cash_validation_witness :
    (runBacktest [⟨0, 100⟩] [] 0 (-1) 0).isOk = true :=
  no_starting_cash_validation [⟨0, 100⟩] (by decide) [] (by decide) 0 (-1) 0 (by decide)

/-- Counterexample to C3 as stated: the dict returned by `run_backtest`
has no `sharpe_ratio` or `max_drawdown` key (the `compute_metrics`
helper is never invoked), even on a successful run. -/
theorem result_lacks_risk_metrics :
    ¬ ("sharpe_ratio" ∈ resultKeys) ∧ ¬ ("max_drawdown" ∈ resultKeys) ∧
    (runBacktest [⟨0, 100⟩] [] 0 1000 0).isOk = true := by decide

/-- C3 (amended): a successful run returns exactly the fields `pnl`,
`final_equity`, `cash`, `position`, `total_trades`, `win_rate` and
`trades`; `sharpe_ratio` and `max_drawdown` are absent because
`run_backtest` never calls `compute_metrics`. -/
theorem result_fields_exact :
    resultKeys = ["pnl", "final_equity", "cash", "position", "total_trades",
      "win_rate", "trades"] ∧
    (runBacktest [⟨0, 200⟩] [] 0 500 0).map
      (fun r => (r.pnl, r.final_equity, r.cash, r.position, r.total_trades, r.win_rate)) =
      .ok (0, 500, 500, 0, 0, 0) := by decide

/-- C8, the code evaluated at the failing input: on the flat equity
curves `[100, 100, 100]` and `[100, 100]` the sharpe computation divides
a zero (or `NaN`) standard deviation and yields a non-finite float
(`NaN`), not the 0 the spec requires; only curves with fewer than 2
points take the guarded `0.0` branch. -/
theorem sharpe_flat_curve_non_finite :
    sharpeOutcome [100, 100, 100] = .nonFinite ∧
    sharpeOutcome [100, 100] = .nonFinite ∧
    sharpeOutcome [100] = .zero ∧
    sharpeOutcome [] = .zero := by decide

/-- Counterexample to C2 as stated: with `starting_cash = -5` the run
does not abort with a `ConfigError` — the Buy intent is processed (and
rejected by the cash check) and a normal result is returned. -/
theorem no_config_error_on_nonpositive_cash :
    (runBacktest [⟨0, 100⟩] [⟨some 0, some "buy", some 10, some 1⟩] 0 (-5) 0).map
      (fun r => (r.total_trades, r.cash)) = .ok (0, -5) := by decide

end

end Hummingbird
